import Mathlib

/-!
# Verification of the pb-calendar ICS generator

Shallow embedding of `src/generate-ics.py` (and the fixed-parameter
demonstration `src/tests/test-ics.py`) together with theorems settling the
specification's claims about it.

Modelling conventions:

* A Python aware `datetime` is modelled by `AwareDT`: the local wall-clock
  instant as a count of seconds since 1970-01-01T00:00:00 *local* time
  (`naive`), paired with the UTC offset in seconds (`offset`).  All datetimes
  the program manipulates live at second granularity or coarser
  (`second`/`microsecond` are zeroed by every `replace` the program performs,
  and the demonstration zeroes them as well), so an integer count of seconds
  is exact.  `pytz` arithmetic on an aware datetime (`+ timedelta`, `replace`)
  shifts the wall clock and keeps the offset, which is what `addSeconds` does;
  comparison of aware datetimes compares UTC instants, modelled by `utc`.
* `Asia/Kolkata` is the fixed offset +5:30 = 19800 seconds.
* `time_str.split(':')` / `int(...)` parsing of line 83 happens at the CLI
  string level; `compute_start` below receives the two parsed integers
  `hh`, `mm` directly, exactly as the Python local variables `hh`, `mm`.
* Calendar dates are `Date` records; `strptime('%Y-%m-%d')` parsing is
  likewise received already split into year/month/day.  `toOrdinal` converts
  a (post-1970) Gregorian date to days since 1970-01-01, matching
  `datetime.date`'s proleptic Gregorian calendar on that range.
-/

namespace PBCal

/-- An aware datetime: local wall-clock seconds since the local epoch plus
the attached UTC offset in seconds. -/
structure AwareDT where
  naive : Int
  offset : Int
deriving DecidableEq

/-- `t + timedelta(seconds = s)` on a `pytz` aware datetime: the wall clock
moves, the offset is untouched (no `normalize` is ever called in the code). -/
def addSeconds (t : AwareDT) (s : Int) : AwareDT :=
  ⟨t.naive + s, t.offset⟩

/-- The UTC instant of an aware datetime; Python compares aware datetimes by
comparing these. -/
def utc (t : AwareDT) : Int :=
  t.naive - t.offset

/-- Python's `datetime.weekday()`: Monday = 0 … Sunday = 6.
1970-01-01 was a Thursday (= 3). -/
def weekdayZ (naive : Int) : Int :=
  (naive / 86400 + 3) % 7

/-- The seven weekday codes accepted by `--byday` (argparse `choices`
guarantees every element of the list is one of these). -/
inductive WD
  | MO
  | TU
  | WE
  | TH
  | FR
  | SA
  | SU
deriving DecidableEq

/-- The `codes` dictionary of line 91: `{'MO':0,...,'SU':6}`. -/
def WD.code : WD → Int
  | .MO => 0
  | .TU => 1
  | .WE => 2
  | .TH => 3
  | .FR => 4
  | .SA => 5
  | .SU => 6

/-- A parsed `--start-date` (the `%Y-%m-%d` fields). -/
structure Date where
  year : Nat
  month : Nat
  day : Nat
deriving DecidableEq

def isLeap (y : Nat) : Bool :=
  y % 4 == 0 && (y % 100 != 0 || y % 400 == 0)

def daysInYear (y : Nat) : Nat :=
  if isLeap y then 366 else 365

def monthLen (y m : Nat) : Nat :=
  if m = 2 then (if isLeap y then 29 else 28)
  else if m = 4 ∨ m = 6 ∨ m = 9 ∨ m = 11 then 30
  else 31

def daysBeforeMonth (y m : Nat) : Nat :=
  (List.range (m - 1)).foldl (fun acc i => acc + monthLen y (i + 1)) 0

/-- Days from 1970-01-01 to the given (post-1970) Gregorian date. -/
def toOrdinal (d : Date) : Nat :=
  (List.range (d.year - 1970)).foldl (fun acc i => acc + daysInYear (1970 + i)) 0
    + daysBeforeMonth d.year d.month + (d.day - 1)

/-- Line 90: `datetime.now(tz).replace(hour=hh, minute=mm, second=0,
microsecond=0)` — keep the local date of `now`, overwrite the time of day. -/
def adjustNow (now : AwareDT) (hh mm : Int) : AwareDT :=
  ⟨now.naive / 86400 * 86400 + hh * 3600 + mm * 60, now.offset⟩

/-- Lines 94-99: the `for delta in range(0, 8)` loop.  Each iteration forms
`cand = now + timedelta(days=delta)` and returns it if `cand.weekday() in
targets and cand > now`; falling off the loop returns `now +
timedelta(days=7)`. -/
def scanLoop (adj : AwareDT) (targets : List Int) : List Nat → AwareDT
  | [] => addSeconds adj (7 * 86400)
  | d :: ds =>
    let cand := addSeconds adj ((d : Int) * 86400)
    if targets.contains (weekdayZ cand.naive) && decide (utc adj < utc cand) then cand
    else scanLoop adj targets ds

/-- Whether some iteration of the line 94-97 loop would return, i.e. whether
the final `return now + timedelta(days=7)` fallback is bypassed. -/
def scanHits (adj : AwareDT) (targets : List Int) : Bool :=
  (List.range 8).any fun d =>
    targets.contains (weekdayZ (addSeconds adj ((d : Int) * 86400)).naive)
      && decide (utc adj < utc (addSeconds adj ((d : Int) * 86400)))

/-- Lines 82-99, `compute_start`.  `hh`/`mm` are the two integers parsed from
`time_str` on line 83.  On the explicit-date path (lines 84-87) the date is
combined with hh:mm (seconds zero) and `tz.localize` attaches the timezone's
offset without shifting the wall clock.  Otherwise the next-occurrence scan
runs from `now` adjusted to hh:mm. -/
def compute_start (dtStr : Option Date) (hh mm : Int) (weekdays : List WD)
    (tzOffset : Int) (now : AwareDT) : AwareDT :=
  match dtStr with
  | some d => ⟨(toOrdinal d : Int) * 86400 + hh * 3600 + mm * 60, tzOffset⟩
  | none =>
    let adj := adjustNow now hh mm
    let targets := weekdays.map WD.code
    scanLoop adj targets (List.range 8)

/-- The STANDARD sub-component built on lines 72-77: DTSTART (naive seconds
since epoch), TZNAME, TZOFFSETFROM and TZOFFSETTO (seconds). -/
structure TzStandard where
  dtstart : Int
  tzname : String
  tzoffsetfrom : Int
  tzoffsetto : Int
deriving DecidableEq

/-- The VTIMEZONE component built on lines 70-78. -/
structure VTimezone where
  tzid : String
  standard : TzStandard
deriving DecidableEq

/-- A VEVENT as built on lines 109-113: SUMMARY, DTSTART, DTEND and the
weekly RRULE with its BYDAY list. -/
structure VEvent where
  summary : String
  dtstart : AwareDT
  dtend : AwareDT
  rruleFreq : String
  rruleByday : List WD
deriving DecidableEq

/-- A sub-component of the calendar document. -/
inductive Component
  | timezone (tz : VTimezone)
  | event (ev : VEvent)
deriving DecidableEq

/-- The VCALENDAR document: the scalar properties added on lines 65-67 and
the ordered sub-component list. -/
structure Calendar where
  prodid : String
  version : String
  xwrTimezone : String
  components : List Component
deriving DecidableEq

/-- `cal.add_component(c)`: appends to the sub-component list, touching
nothing else. -/
def add_component (cal : Calendar) (c : Component) : Calendar :=
  { cal with components := cal.components ++ [c] }

/-- Lines 60-80, `load_or_create_calendar`.  The file-system state is an
`Option Calendar`: `none` when the path does not exist, `some cal` when it
holds a document that parses to `cal` (the icalendar library's
`from_ical`/`to_ical` round-trip is taken as faithful).  The fresh document
hardcodes +5:30 = 19800 seconds for both offsets whatever `tzid` is. -/
def load_or_create_calendar (file : Option Calendar) (tzid : String) : Calendar :=
  match file with
  | some cal => cal
  | none =>
    { prodid := "-//PB Calendar//"
      version := "2.0"
      xwrTimezone := tzid
      components := [Component.timezone ⟨tzid, ⟨0, tzid, 19800, 19800⟩⟩] }

/-- Line 107: `dtend = dtstart + timedelta(minutes=args.duration)`. -/
def mkDtend (dtstart : AwareDT) (duration : Int) : AwareDT :=
  addSeconds dtstart (duration * 60)

/-- Lines 109-113: build the event record. -/
def mkEvent (name : String) (dtstart dtend : AwareDT) (byday : List WD) : VEvent :=
  ⟨name, dtstart, dtend, "weekly", byday⟩

/-- Lines 101-118, `main`, as a function from the prior file-system state to
the document written back: load or create, compute the start, append one
event, rewrite the file in full.  Serialization is modelled as storing the
document value itself (round-trip fidelity of the icalendar library). -/
def runMain (file : Option Calendar) (name : String) (byday : List WD)
    (hh mm : Int) (startDate : Option Date) (duration : Int) (tzid : String)
    (tzOffset : Int) (now : AwareDT) : Calendar :=
  let cal := load_or_create_calendar file tzid
  let dtstart := compute_start startDate hh mm byday tzOffset now
  let dtend := mkDtend dtstart duration
  add_component cal (Component.event (mkEvent name dtstart dtend byday))

/-- Lines 117-118: `with open(args.output,'wb') as f: f.write(cal.to_ical())`.
Opening with mode `wb` truncates (or creates) the file *before* the
serializer runs; `ser = none` models `to_ical()` raising, `ser = some bs` a
successful serialization to the byte string `bs`.  The result is the file's
content after the invocation (`some` = the file exists) and whether the write
completed. -/
def writePhase (prior : Option (List Nat)) (ser : Option (List Nat)) :
    Option (List Nat) × Bool :=
  let opened : Option (List Nat) := some []
  match ser with
  | none => (opened, false)
  | some bs => (some bs, true)

/-- The next-Friday computation of `src/tests/test-ics.py` lines 32-40:
`days_ahead = 4 - now.weekday()`, bumped by 7 when non-positive, then the
shifted datetime's time is replaced by 18:00:00.000000. -/
def firstFridayDemo (now : AwareDT) : AwareDT :=
  let wd := weekdayZ now.naive
  let daysAhead := if 4 - wd ≤ 0 then 4 - wd + 7 else 4 - wd
  let shifted := addSeconds now (daysAhead * 86400)
  ⟨shifted.naive / 86400 * 86400 + 18 * 3600, shifted.offset⟩

/-! ## Helper lemmas about the next-occurrence scan -/

theorem weekdayZ_bounds (t : Int) : 0 ≤ weekdayZ t ∧ weekdayZ t < 7 := by
  unfold weekdayZ
  omega

theorem weekdayZ_add_days (t d : Int) :
    weekdayZ (t + d * 86400) = (weekdayZ t + d) % 7 := by
  unfold weekdayZ
  have h1 : (t + d * 86400) / 86400 = t / 86400 + d := by omega
  rw [h1]
  omega

theorem scanLoop_skip_zero (adj : AwareDT) (t : List Int) (ds : List Nat) :
    scanLoop adj t (0 :: ds) = scanLoop adj t ds := by
  simp [scanLoop, addSeconds, utc]

theorem scanLoop_skip (adj : AwareDT) (t : List Int) (ds : List Nat) (d : Nat)
    (h : t.contains (weekdayZ (adj.naive + (d : Int) * 86400)) = false) :
    scanLoop adj t (d :: ds) = scanLoop adj t ds := by
  simp only [scanLoop, addSeconds]
  rw [h]
  simp

theorem scanLoop_hit (adj : AwareDT) (t : List Int) (ds : List Nat) (d : Nat)
    (h1 : 1 ≤ d) (h : t.contains (weekdayZ (adj.naive + (d : Int) * 86400)) = true) :
    scanLoop adj t (d :: ds) = addSeconds adj ((d : Int) * 86400) := by
  have hlt : decide (utc adj < utc (addSeconds adj ((d : Int) * 86400))) = true := by
    simp only [utc, addSeconds, decide_eq_true_eq]
    omega
  simp only [scanLoop, addSeconds] at hlt ⊢
  rw [h, hlt]
  simp

/-- The `range(0, 8)` loop returns its first hit: if the weekday test fails at
every offset strictly between 0 and `d` and succeeds at `d ∈ [1,7]`, the loop
returns the day-`d` candidate.  (Offset 0 can never be returned because the
candidate there equals the adjusted now and the comparison is strict.) -/
theorem scanLoop_range8 (adj : AwareDT) (t : List Int) (d : Nat)
    (hd1 : 1 ≤ d) (hd7 : d ≤ 7)
    (hmin : ∀ e : Nat, 1 ≤ e → e < d → t.contains (weekdayZ (adj.naive + (e : Int) * 86400)) = false)
    (hhit : t.contains (weekdayZ (adj.naive + (d : Int) * 86400)) = true) :
    scanLoop adj t (List.range 8) = addSeconds adj ((d : Int) * 86400) := by
  have hr : List.range 8 = [0, 1, 2, 3, 4, 5, 6, 7] := by decide
  rw [hr, scanLoop_skip_zero]
  interval_cases d
  · exact scanLoop_hit _ _ _ 1 (by omega) hhit
  · rw [scanLoop_skip _ _ _ 1 (hmin 1 (by omega) (by omega))]
    exact scanLoop_hit _ _ _ 2 (by omega) hhit
  · rw [scanLoop_skip _ _ _ 1 (hmin 1 (by omega) (by omega)),
      scanLoop_skip _ _ _ 2 (hmin 2 (by omega) (by omega))]
    exact scanLoop_hit _ _ _ 3 (by omega) hhit
  · rw [scanLoop_skip _ _ _ 1 (hmin 1 (by omega) (by omega)),
      scanLoop_skip _ _ _ 2 (hmin 2 (by omega) (by omega)),
      scanLoop_skip _ _ _ 3 (hmin 3 (by omega) (by omega))]
    exact scanLoop_hit _ _ _ 4 (by omega) hhit
  · rw [scanLoop_skip _ _ _ 1 (hmin 1 (by omega) (by omega)),
      scanLoop_skip _ _ _ 2 (hmin 2 (by omega) (by omega)),
      scanLoop_skip _ _ _ 3 (hmin 3 (by omega) (by omega)),
      scanLoop_skip _ _ _ 4 (hmin 4 (by omega) (by omega))]
    exact scanLoop_hit _ _ _ 5 (by omega) hhit
  · rw [scanLoop_skip _ _ _ 1 (hmin 1 (by omega) (by omega)),
      scanLoop_skip _ _ _ 2 (hmin 2 (by omega) (by omega)),
      scanLoop_skip _ _ _ 3 (hmin 3 (by omega) (by omega)),
      scanLoop_skip _ _ _ 4 (hmin 4 (by omega) (by omega)),
      scanLoop_skip _ _ _ 5 (hmin 5 (by omega) (by omega))]
    exact scanLoop_hit _ _ _ 6 (by omega) hhit
  · rw [scanLoop_skip _ _ _ 1 (hmin 1 (by omega) (by omega)),
      scanLoop_skip _ _ _ 2 (hmin 2 (by omega) (by omega)),
      scanLoop_skip _ _ _ 3 (hmin 3 (by omega) (by omega)),
      scanLoop_skip _ _ _ 4 (hmin 4 (by omega) (by omega)),
      scanLoop_skip _ _ _ 5 (hmin 5 (by omega) (by omega)),
      scanLoop_skip _ _ _ 6 (hmin 6 (by omega) (by omega))]
    exact scanLoop_hit _ _ _ 7 (by omega) hhit

/-- With an empty target set every iteration's membership test fails, so the
loop falls through to the `now + timedelta(days=7)` fallback. -/
theorem scanLoop_nil_targets (adj : AwareDT) (ds : List Nat) :
    scanLoop adj [] ds = addSeconds adj (7 * 86400) := by
  induction ds with
  | nil => rfl
  | cons d ds ih => simpa [scanLoop] using ih

/-- Whatever the target set, the scan's result is at least one full day after
the adjusted now and keeps its offset: a hit needs `cand > now`, which forces
the day offset to be at least 1, and the fallback adds 7 days. -/
theorem scanLoop_ge (adj : AwareDT) (t : List Int) (ds : List Nat) :
    adj.naive + 86400 ≤ (scanLoop adj t ds).naive ∧
      (scanLoop adj t ds).offset = adj.offset := by
  induction ds with
  | nil =>
    refine ⟨?_, rfl⟩
    show adj.naive + 86400 ≤ adj.naive + 7 * 86400
    omega
  | cons d ds ih =>
    simp only [scanLoop]
    split
    · rename_i hc
      have h2 := (Bool.and_eq_true _ _ |>.mp hc).2
      rw [decide_eq_true_eq] at h2
      unfold utc addSeconds at h2
      unfold addSeconds
      constructor
      · simp only at h2 ⊢
        omega
      · rfl
    · exact ih

/-- A non-empty weekday list hits the scan at some offset in `[1,7]`. -/
theorem exists_hit (adj : AwareDT) (ws : List WD) (hne : ws ≠ []) :
    ∃ d : Nat, 1 ≤ d ∧ d ≤ 7 ∧
      (ws.map WD.code).contains (weekdayZ (adj.naive + (d : Int) * 86400)) = true := by
  obtain ⟨w, hw⟩ := List.exists_mem_of_ne_nil ws hne
  have hcb : 0 ≤ WD.code w ∧ WD.code w < 7 := by cases w <;> exact ⟨by decide, by decide⟩
  have hw0 := weekdayZ_bounds adj.naive
  obtain ⟨d, hd1, hd7, hdw⟩ :
      ∃ d : Nat, 1 ≤ d ∧ d ≤ 7 ∧ (weekdayZ adj.naive + (d : Int)) % 7 = WD.code w := by
    refine ⟨((WD.code w - weekdayZ adj.naive - 1) % 7 + 1).toNat, by omega, by omega, by omega⟩
  refine ⟨d, hd1, hd7, ?_⟩
  rw [weekdayZ_add_days, hdw]
  exact List.elem_eq_true_of_mem (List.mem_map_of_mem WD.code hw)

/-- The scan's first hit: a non-empty weekday list gives an offset `d ∈ [1,7]`
that hits while every earlier positive offset misses. -/
theorem exists_first_hit (adj : AwareDT) (ws : List WD) (hne : ws ≠ []) :
    ∃ d : Nat, 1 ≤ d ∧ d ≤ 7 ∧
      (ws.map WD.code).contains (weekdayZ (adj.naive + (d : Int) * 86400)) = true ∧
      ∀ e : Nat, 1 ≤ e → e < d →
        (ws.map WD.code).contains (weekdayZ (adj.naive + (e : Int) * 86400)) = false := by
  obtain ⟨d0, hd01, hd07, hd0c⟩ := exists_hit adj ws hne
  have hex : ∃ d : Nat, 1 ≤ d ∧
      (ws.map WD.code).contains (weekdayZ (adj.naive + (d : Int) * 86400)) = true :=
    ⟨d0, hd01, hd0c⟩
  refine ⟨Nat.find hex, (Nat.find_spec hex).1, ?_, (Nat.find_spec hex).2, ?_⟩
  · exact le_trans (Nat.find_min' hex ⟨hd01, hd0c⟩) hd07
  · intro e he1 helt
    have hnot := Nat.find_min hex helt
    cases hb : (ws.map WD.code).contains (weekdayZ (adj.naive + (e : Int) * 86400)) with
    | false => rfl
    | true => exact absurd ⟨he1, hb⟩ hnot

/-- `compute_start` on the next-occurrence path returns the first-hit
candidate. -/
theorem compute_start_next_eq (now : AwareDT) (hh mm : Int) (ws : List WD)
    (tzOff : Int) (hne : ws ≠ []) :
    ∃ d : Nat, 1 ≤ d ∧ d ≤ 7 ∧
      (ws.map WD.code).contains
        (weekdayZ ((adjustNow now hh mm).naive + (d : Int) * 86400)) = true ∧
      (∀ e : Nat, 1 ≤ e → e < d →
        (ws.map WD.code).contains
          (weekdayZ ((adjustNow now hh mm).naive + (e : Int) * 86400)) = false) ∧
      compute_start none hh mm ws tzOff now =
        addSeconds (adjustNow now hh mm) ((d : Int) * 86400) := by
  obtain ⟨d, hd1, hd7, hhit, hmin⟩ := exists_first_hit (adjustNow now hh mm) ws hne
  exact ⟨d, hd1, hd7, hhit, hmin, scanLoop_range8 _ _ d hd1 hd7 hmin hhit⟩

@[simp]
theorem addSeconds_naive (t : AwareDT) (s : Int) : (addSeconds t s).naive = t.naive + s := rfl

@[simp]
theorem addSeconds_offset (t : AwareDT) (s : Int) : (addSeconds t s).offset = t.offset := rfl

@[simp]
theorem adjustNow_naive (now : AwareDT) (hh mm : Int) :
    (adjustNow now hh mm).naive = now.naive / 86400 * 86400 + hh * 3600 + mm * 60 := rfl

@[simp]
theorem adjustNow_offset (now : AwareDT) (hh mm : Int) :
    (adjustNow now hh mm).offset = now.offset := rfl

/-- The VEVENT components of a document, in order. -/
def eventsOf (cal : Calendar) : List VEvent :=
  cal.components.filterMap fun c =>
    match c with
    | .event ev => some ev
    | .timezone _ => none

/-! ## Claims -/

/-- C1 (counterexample): the claim says that with now = Friday 2025-06-06T10:00
IST, time-of-day 18:00 and weekday set {FR}, `compute_start` returns
2025-06-06T18:00 IST (naive second 1749232800 = 20245·86400 + 64800).  It does
not: the day-offset-0 candidate equals the adjusted now, and the comparison
`cand > now` is strict, so the same Friday is rejected. -/
theorem compute_start_same_day_claim_false :
    compute_start none 18 0 [WD.FR] 19800 ⟨1749204000, 19800⟩ ≠ ⟨1749232800, 19800⟩ := by
  decide

/-- C1 (amended): in the next-occurrence path a same-day occurrence never
qualifies, even when the requested time-of-day has not yet passed, because
line 90 overwrites now's time with the requested time before the strict
comparison: for now = Friday 2025-06-06T10:00 IST, time-of-day 18:00 and
weekday set {FR}, `compute_start` returns 2025-06-13T18:00 IST, one week
later (naive second 1749837600 = 20252·86400 + 64800). -/
theorem compute_start_same_day_returns_next_week :
    compute_start none 18 0 [WD.FR] 19800 ⟨1749204000, 19800⟩ = ⟨1749837600, 19800⟩ := by
  decide

/-- C3 (counterexample): a serialization failure does touch the on-disk file.
`open(path, 'wb')` truncates the file before `to_ical()` runs, so when
serialization fails the prior content `[1,2,3]` has been replaced by an empty
(truncated) file, refuting "aborts without having touched the on-disk file". -/
theorem writePhase_touches_file_on_failure :
    (writePhase (some [1, 2, 3]) none).1 = some [] ∧
    (writePhase (some [1, 2, 3]) none).1 ≠ some [1, 2, 3] ∧
    (writePhase (some [1, 2, 3]) none).2 = false := by
  exact ⟨rfl, by decide, rfl⟩

/-- C3 (amended): a failure during serialization happens after the output file
has already been opened for writing, which truncates it; such a failed
invocation leaves the on-disk file truncated to zero bytes (prior contents
lost) rather than untouched.  A successful invocation writes the full buffer,
so the file then holds the complete serialized document. -/
theorem writePhase_truncates_on_failure (prior : Option (List Nat)) (ser : Option (List Nat)) :
    ((writePhase prior ser).2 = false → (writePhase prior ser).1 = some []) ∧
    (∀ bs, ser = some bs → writePhase prior ser = (some bs, true)) := by
  cases ser with
  | none => exact ⟨fun _ => rfl, fun bs h => by cases h⟩
  | some bs =>
    constructor
    · intro h
      cases h
    · intro bs2 h
      cases h
      rfl

/-- C3 (witness): the amended behaviour at concrete inputs. -/
theorem writePhase_truncates_witness :
    (writePhase (some [5]) none).1 = some [] ∧
    writePhase (some [5]) (some [9]) = (some [9], true) :=
  ⟨(writePhase_truncates_on_failure (some [5]) none).1 rfl,
   (writePhase_truncates_on_failure (some [5]) (some [9])).2 [9] rfl⟩

/-- C5: on the explicit-date path `compute_start` returns the given calendar
date combined with the parsed hour and minute (the naive seconds value is a
multiple of 60, i.e. seconds and sub-seconds are zero) with the given
timezone offset attached, for every weekday list and independent of the
current time — no weekday-membership check is performed; concretely,
2025-06-06 with 18:00 and Asia/Kolkata yields 2025-06-06T18:00+05:30 even
with the mismatched weekday list [SA]. -/
theorem compute_start_explicit_date_bypass (d : Date) (hh mm : Int) (ws : List WD)
    (tzOff : Int) (now : AwareDT) :
    compute_start (some d) hh mm ws tzOff now =
      ⟨(toOrdinal d : Int) * 86400 + hh * 3600 + mm * 60, tzOff⟩ ∧
    (compute_start (some d) hh mm ws tzOff now).naive % 60 = 0 ∧
    compute_start (some ⟨2025, 6, 6⟩) 18 0 [WD.SA] 19800 now = ⟨1749232800, 19800⟩ := by
  refine ⟨rfl, ?_, rfl⟩
  show ((toOrdinal d : Int) * 86400 + hh * 3600 + mm * 60) % 60 = 0
  omega

/-- C6: appending a component via `add_component` leaves PRODID, VERSION and
X-WR-TIMEZONE unchanged and every previously present component in place; and
the round trip — a fresh write of event "A", then a second invocation with
different parameters against the stored document — yields a document whose
VEVENT components are exactly the two events, the first unmodified. -/
theorem calendar_append_preserves :
    (∀ (cal : Calendar) (c : Component),
      (add_component cal c).prodid = cal.prodid ∧
      (add_component cal c).version = cal.version ∧
      (add_component cal c).xwrTimezone = cal.xwrTimezone ∧
      (add_component cal c).components = cal.components ++ [c]) ∧
    eventsOf (runMain none "A" [WD.FR] 18 0 (some ⟨2025, 6, 6⟩) 60 "Asia/Kolkata" 19800 ⟨0, 0⟩) =
      [⟨"A", ⟨1749232800, 19800⟩, ⟨1749236400, 19800⟩, "weekly", [WD.FR]⟩] ∧
    eventsOf (runMain
        (some (runMain none "A" [WD.FR] 18 0 (some ⟨2025, 6, 6⟩) 60 "Asia/Kolkata" 19800 ⟨0, 0⟩))
        "B" [WD.MO] 19 30 (some ⟨2025, 7, 1⟩) 90 "Asia/Kolkata" 19800 ⟨0, 0⟩) =
      [⟨"A", ⟨1749232800, 19800⟩, ⟨1749236400, 19800⟩, "weekly", [WD.FR]⟩,
       ⟨"B", ⟨1751398200, 19800⟩, ⟨1751403600, 19800⟩, "weekly", [WD.MO]⟩] ∧
    (runMain
        (some (runMain none "A" [WD.FR] 18 0 (some ⟨2025, 6, 6⟩) 60 "Asia/Kolkata" 19800 ⟨0, 0⟩))
        "B" [WD.MO] 19 30 (some ⟨2025, 7, 1⟩) 90 "Asia/Kolkata" 19800 ⟨0, 0⟩).prodid =
      "-//PB Calendar//" := by
  exact ⟨fun cal c => ⟨rfl, rfl, rfl, rfl⟩, by decide, by decide, by decide⟩

/-- C7: for a path that does not exist (file-system state `none`) and any
timezone identifier, the fresh document has the fixed PRODID, VERSION "2.0",
X-WR-TIMEZONE equal to the identifier, and exactly one timezone component
whose standard rule starts at the naive Unix epoch, is named by the
identifier, and carries +5:30 (19800 s) for both offsets — regardless of
which timezone was requested. -/
theorem load_or_create_fresh_document (tzid : String) :
    load_or_create_calendar none tzid =
      { prodid := "-//PB Calendar//"
        version := "2.0"
        xwrTimezone := tzid
        components := [Component.timezone ⟨tzid, ⟨0, tzid, 19800, 19800⟩⟩] } := rfl

/-- C8: the appended event's end instant is the start instant plus exactly
`duration` minutes with the offset unchanged (for 60 minutes, exactly 3600
seconds later); duration is not validated, and a non-positive duration
silently yields an end instant at or before the start instant. -/
theorem dtend_duration_arithmetic (start : AwareDT) (d : Int) :
    (mkDtend start d).offset = start.offset ∧
    (mkDtend start d).naive = start.naive + d * 60 ∧
    (mkDtend start 60).naive = start.naive + 3600 ∧
    (d ≤ 0 → utc (mkDtend start d) ≤ utc start) := by
  refine ⟨rfl, rfl, ?_, ?_⟩
  · show start.naive + 60 * 60 = start.naive + 3600
    omega
  · intro hd
    show start.naive + d * 60 - start.offset ≤ start.naive - start.offset
    omega

/-- C8 (witness): the duration arithmetic at a concrete start and the
non-positive duration -30, whose end instant precedes the start. -/
theorem dtend_duration_arithmetic_witness :
    (mkDtend ⟨1749232800, 19800⟩ (-30)).offset = 19800 ∧
    (mkDtend ⟨1749232800, 19800⟩ (-30)).naive = 1749232800 + (-30) * 60 ∧
    utc (mkDtend ⟨1749232800, 19800⟩ (-30)) ≤ utc ⟨1749232800, 19800⟩ := by
  obtain ⟨h1, h2, _, h4⟩ := dtend_duration_arithmetic ⟨1749232800, 19800⟩ (-30)
  exact ⟨h1, h2, h4 (by decide)⟩

/-- C4: for every non-empty target weekday list the scan over day offsets 0..7
hits some iteration, so the final `now + timedelta(days=7)` fallback is
unreachable; with an empty weekday list no iteration hits and the fallback
executes, advancing exactly one week from the adjusted now while ignoring the
weekday set. -/
theorem scan_fallback_unreachable (now : AwareDT) (hh mm : Int) (ws : List WD) (tzOff : Int) :
    (ws ≠ [] → scanHits (adjustNow now hh mm) (ws.map WD.code) = true) ∧
    (ws = [] → scanHits (adjustNow now hh mm) (ws.map WD.code) = false ∧
      compute_start none hh mm ws tzOff now = addSeconds (adjustNow now hh mm) (7 * 86400)) := by
  constructor
  · intro hne
    obtain ⟨d, hd1, hd7, hhit⟩ := exists_hit (adjustNow now hh mm) ws hne
    unfold scanHits
    rw [List.any_eq_true]
    refine ⟨d, ?_, ?_⟩
    · rw [List.mem_range]
      omega
    · rw [Bool.and_eq_true]
      refine ⟨hhit, ?_⟩
      rw [decide_eq_true_eq]
      show (adjustNow now hh mm).naive - (adjustNow now hh mm).offset <
        (adjustNow now hh mm).naive + (d : Int) * 86400 - (adjustNow now hh mm).offset
      omega
  · intro hemp
    subst hemp
    refine ⟨?_, scanLoop_nil_targets _ _⟩
    unfold scanHits
    simp [List.contains]

/-- C4 (witness): the scan hits for the singleton list [FR], and with the
empty list no iteration hits and the fallback fires one week after the
adjusted now. -/
theorem scan_fallback_unreachable_witness :
    scanHits (adjustNow ⟨1749204000, 19800⟩ 18 0) ([WD.FR].map WD.code) = true ∧
    scanHits (adjustNow ⟨1749204000, 19800⟩ 18 0) (([] : List WD).map WD.code) = false ∧
    compute_start none 18 0 [] 19800 ⟨1749204000, 19800⟩ =
      addSeconds (adjustNow ⟨1749204000, 19800⟩ 18 0) (7 * 86400) := by
  refine ⟨(scan_fallback_unreachable ⟨1749204000, 19800⟩ 18 0 [WD.FR] 19800).1 (by decide),
    ((scan_fallback_unreachable ⟨1749204000, 19800⟩ 18 0 [] 19800).2 rfl).1,
    ((scan_fallback_unreachable ⟨1749204000, 19800⟩ 18 0 [] 19800).2 rfl).2⟩

/-- C10 (implicit): in the next-occurrence path, for every timezone, valid
time-of-day and non-empty weekday list, `compute_start` never returns an
instant on the current day: the result is at least one full day after the
adjusted now, and its local calendar day is strictly after the current one,
because the offset-0 candidate equals the adjusted now and the scan accepts
only candidates strictly later. -/
theorem compute_start_never_same_day (now : AwareDT) (hh mm : Int) (ws : List WD) (tzOff : Int)
    (hne : ws ≠ []) (hh0 : 0 ≤ hh) (hh24 : hh < 24) (hm0 : 0 ≤ mm) (hm60 : mm < 60) :
    (adjustNow now hh mm).naive + 86400 ≤ (compute_start none hh mm ws tzOff now).naive ∧
    now.naive / 86400 < (compute_start none hh mm ws tzOff now).naive / 86400 := by
  have h := (scanLoop_ge (adjustNow now hh mm) (ws.map WD.code) (List.range 8)).1
  have hcs : compute_start none hh mm ws tzOff now
      = scanLoop (adjustNow now hh mm) (ws.map WD.code) (List.range 8) := rfl
  rw [hcs]
  rw [adjustNow_naive] at h ⊢
  exact ⟨h, by omega⟩

/-- C10 (witness): the never-same-day bound at now = Friday 2025-06-06T10:00
IST with time-of-day 18:00 and weekday set {FR}. -/
theorem compute_start_never_same_day_witness :
    (adjustNow ⟨1749204000, 19800⟩ 18 0).naive + 86400 ≤
      (compute_start none 18 0 [WD.FR] 19800 ⟨1749204000, 19800⟩).naive ∧
    (1749204000 : Int) / 86400 <
      (compute_start none 18 0 [WD.FR] 19800 ⟨1749204000, 19800⟩).naive / 86400 :=
  compute_start_never_same_day ⟨1749204000, 19800⟩ 18 0 [WD.FR] 19800
    (by decide) (by decide) (by decide) (by decide) (by decide)

/-- C2 (counterexample): the result is not the earliest qualifying instant
strictly after "now".  With now = Friday 2025-06-06T10:00 IST, time 18:00 and
weekday set {FR}, the instant 2025-06-06T18:00 IST has weekday FR, lies at
the requested time-of-day, and is strictly after now, yet `compute_start`
returns the strictly later 2025-06-13T18:00 IST. -/
theorem compute_start_not_earliest_after_now :
    ([WD.FR].map WD.code).contains (weekdayZ 1749232800) = true ∧
    utc ⟨1749204000, 19800⟩ < utc ⟨1749232800, 19800⟩ ∧
    compute_start none 18 0 [WD.FR] 19800 ⟨1749204000, 19800⟩ = ⟨1749837600, 19800⟩ ∧
    utc ⟨1749232800, 19800⟩ < utc ⟨1749837600, 19800⟩ := by
  decide

/-- C2 (amended): for a fixed now, time-of-day, non-empty weekday list and
timezone, `compute_start` (a pure function, hence deterministic) returns, on
the next-occurrence path, the chronologically earliest instant lying at the
requested time-of-day whose weekday is in the target set and which is
strictly after now *adjusted to that time-of-day* (not strictly after now
itself); its offset is now's.  When an explicit date is given the result
equals the explicit-date instant unconditionally. -/
theorem compute_start_earliest_after_adjusted_now (now : AwareDT) (hh mm : Int)
    (ws : List WD) (tzOff : Int) (hne : ws ≠ []) :
    ((compute_start none hh mm ws tzOff now).offset = now.offset ∧
      (ws.map WD.code).contains (weekdayZ (compute_start none hh mm ws tzOff now).naive) = true ∧
      (adjustNow now hh mm).naive < (compute_start none hh mm ws tzOff now).naive ∧
      (∃ k : Int,
        (compute_start none hh mm ws tzOff now).naive = k * 86400 + hh * 3600 + mm * 60) ∧
      ∀ k : Int,
        (adjustNow now hh mm).naive < k * 86400 + hh * 3600 + mm * 60 →
        (ws.map WD.code).contains (weekdayZ (k * 86400 + hh * 3600 + mm * 60)) = true →
        (compute_start none hh mm ws tzOff now).naive ≤ k * 86400 + hh * 3600 + mm * 60) ∧
    ∀ d : Date, compute_start (some d) hh mm ws tzOff now =
      ⟨(toOrdinal d : Int) * 86400 + hh * 3600 + mm * 60, tzOff⟩ := by
  obtain ⟨d, hd1, hd7, hhit, hmin, heq⟩ := compute_start_next_eq now hh mm ws tzOff hne
  refine ⟨?_, fun d => rfl⟩
  rw [heq]
  refine ⟨rfl, ?_, ?_, ?_, ?_⟩
  · rw [addSeconds_naive]
    exact hhit
  · rw [addSeconds_naive]
    omega
  · refine ⟨now.naive / 86400 + (d : Int), ?_⟩
    rw [addSeconds_naive, adjustNow_naive]
    ring
  · intro k hk hcont
    rw [addSeconds_naive]
    rw [adjustNow_naive] at hk
    by_contra hlt
    push_neg at hlt
    rw [adjustNow_naive] at hlt
    have hkq : now.naive / 86400 < k := by omega
    have hkd : k < now.naive / 86400 + (d : Int) := by omega
    have he1 : 1 ≤ (k - now.naive / 86400).toNat := by omega
    have helt : (k - now.naive / 86400).toNat < d := by omega
    have ht : k * 86400 + hh * 3600 + mm * 60 =
        (adjustNow now hh mm).naive + ((k - now.naive / 86400).toNat : Int) * 86400 := by
      rw [adjustNow_naive]
      omega
    rw [ht] at hcont
    rw [hmin (k - now.naive / 86400).toNat he1 helt] at hcont
    cases hcont

/-- C2 (witness): the amended characterization at now = Friday
2025-06-06T10:00 IST, time 18:00, weekday set {FR}: the result 2025-06-13
T18:00 is at the requested time-of-day on a target weekday strictly after the
adjusted now, is minimal among such instants, and the explicit-date instant
is returned unconditionally. -/
theorem compute_start_earliest_witness :
    ((compute_start none 18 0 [WD.FR] 19800 ⟨1749204000, 19800⟩).offset = 19800 ∧
      ([WD.FR].map WD.code).contains
        (weekdayZ (compute_start none 18 0 [WD.FR] 19800 ⟨1749204000, 19800⟩).naive) = true ∧
      (adjustNow ⟨1749204000, 19800⟩ 18 0).naive <
        (compute_start none 18 0 [WD.FR] 19800 ⟨1749204000, 19800⟩).naive ∧
      (∃ k : Int, (compute_start none 18 0 [WD.FR] 19800 ⟨1749204000, 19800⟩).naive =
        k * 86400 + 18 * 3600 + 0 * 60) ∧
      ∀ k : Int,
        (adjustNow ⟨1749204000, 19800⟩ 18 0).naive < k * 86400 + 18 * 3600 + 0 * 60 →
        ([WD.FR].map WD.code).contains (weekdayZ (k * 86400 + 18 * 3600 + 0 * 60)) = true →
        (compute_start none 18 0 [WD.FR] 19800 ⟨1749204000, 19800⟩).naive ≤
          k * 86400 + 18 * 3600 + 0 * 60) ∧
    ∀ d : Date, compute_start (some d) 18 0 [WD.FR] 19800 ⟨1749204000, 19800⟩ =
      ⟨(toOrdinal d : Int) * 86400 + 18 * 3600 + 0 * 60, 19800⟩ :=
  compute_start_earliest_after_adjusted_now ⟨1749204000, 19800⟩ 18 0 [WD.FR] 19800 (by decide)

/-- For any day offset `da ∈ [1,7]` that lands on a Friday, the scan with
target list [FR] and time 18:00 returns the day-`da` candidate, which equals
the demonstration's shifted-then-replaced instant. -/
theorem demo_aux (now : AwareDT) (da : Int)
    (h1 : 1 ≤ da) (h7 : da ≤ 7) (h4 : (weekdayZ now.naive + da) % 7 = 4) :
    scanLoop (adjustNow now 18 0) ([WD.FR].map WD.code) (List.range 8) =
      ⟨(now.naive + da * 86400) / 86400 * 86400 + 18 * 3600, now.offset⟩ := by
  have hwadj : weekdayZ (adjustNow now 18 0).naive = weekdayZ now.naive := by
    unfold weekdayZ
    rw [adjustNow_naive]
    omega
  have hb := weekdayZ_bounds now.naive
  have hhit : ([WD.FR].map WD.code).contains
      (weekdayZ ((adjustNow now 18 0).naive + (da.toNat : Int) * 86400)) = true := by
    rw [weekdayZ_add_days, hwadj]
    have h5 : (weekdayZ now.naive + (da.toNat : Int)) % 7 = 4 := by omega
    rw [h5]
    rfl
  have hmin : ∀ e : Nat, 1 ≤ e → e < da.toNat →
      ([WD.FR].map WD.code).contains
        (weekdayZ ((adjustNow now 18 0).naive + (e : Int) * 86400)) = false := by
    intro e he1 helt
    rw [weekdayZ_add_days, hwadj]
    have hne : (weekdayZ now.naive + (e : Int)) % 7 ≠ 4 := by omega
    have hbeq : ((weekdayZ now.naive + (e : Int)) % 7 == WD.code WD.FR) = false :=
      beq_eq_false_iff_ne.mpr hne
    simp [List.contains, List.elem, hbeq]
  rw [scanLoop_range8 _ _ da.toNat (by omega) (by omega) hmin hhit]
  show (⟨(adjustNow now 18 0).naive + (da.toNat : Int) * 86400,
      (adjustNow now 18 0).offset⟩ : AwareDT) =
    ⟨(now.naive + da * 86400) / 86400 * 86400 + 18 * 3600, now.offset⟩
  simp only [AwareDT.mk.injEq, adjustNow_naive, adjustNow_offset, and_true]
  omega

/-- C9: for every now, the fixed-parameter demonstration's first-occurrence
computation (`days_ahead = 4 - now.weekday()`, plus 7 when non-positive, then
setting the time to 18:00:00) yields the same instant as `compute_start`
invoked with weekday set {FR}, time-of-day 18:00, and no explicit date. -/
theorem demo_refines_compute_start (now : AwareDT) (tzOff : Int) :
    compute_start none 18 0 [WD.FR] tzOff now = firstFridayDemo now := by
  have hb := weekdayZ_bounds now.naive
  have hcs : compute_start none 18 0 [WD.FR] tzOff now =
      scanLoop (adjustNow now 18 0) ([WD.FR].map WD.code) (List.range 8) := rfl
  have hd : firstFridayDemo now =
      ⟨(now.naive +
          (if 4 - weekdayZ now.naive ≤ 0 then 4 - weekdayZ now.naive + 7
            else 4 - weekdayZ now.naive) * 86400) / 86400 * 86400 + 18 * 3600,
        now.offset⟩ := rfl
  rcases le_or_lt (4 - weekdayZ now.naive) 0 with h | h
  · rw [hcs, hd, if_pos h]
    exact demo_aux now (4 - weekdayZ now.naive + 7) (by omega) (by omega) (by omega)
  · rw [hcs, hd, if_neg (not_le.mpr h)]
    exact demo_aux now (4 - weekdayZ now.naive) (by omega) (by omega) (by omega)

end PBCal
